import Mathlib

/-!
Verification of the AI-News client-side aggregation and UI logic.

The program (src/App.jsx, src/hooks/useTheme.js) fetches articles from
three news APIs, normalizes them into a common `Article` shape, merges,
deduplicates by `id` via a JavaScript `Map`, sorts by publication date
descending, and renders the result with search filtering, pagination and
session bookmarks.  This file shallowly embeds those operations:

* publication and bookmark timestamps are modelled as integers (the
  numeric value of `new Date(s).getTime()` used by the comparator);
* a JavaScript `Map` built from `(id, item)` pairs is modelled by an
  association list in key-insertion order: `Map.prototype.set` overwrites
  the value of an existing key in place and appends a new key at the end;
* JavaScript's stable in-place `sort` with comparator
  `(a, b) => new Date(b.publishedAt) - new Date(a.publishedAt)` is
  modelled by a stable insertion sort into descending order;
* `Promise.allSettled` outcomes are modelled by `Option`: `none` covers
  both a rejected promise and a fulfilled payload lacking the expected
  articles field (both take the `else` branch and contribute nothing).
-/

/-- The normalized article record produced by `fetchAllNews` in
src/App.jsx.  `bookmarkedAt` is `none` for plain articles; `addBookmark`
sets it (the JS objects are dynamic, bookmarks carry the extra field). -/
structure Article where
  id : String
  title : String
  url : String
  imageUrl : Option String
  source : String
  publishedAt : Int
  apiSource : String
  bookmarkedAt : Option Int := none
deriving Repr, DecidableEq

/-- One step of building `new Map(combinedArticles.map(item => [item.id, item]))`
(src/App.jsx line 91): `Map.prototype.set` overwrites the value of an
existing key in place (keys keep first-insertion order) and appends a new
key at the end.  The accumulator's keys are pairwise distinct throughout,
so replacing the first matching entry is exactly `Map.prototype.set`. -/
def mapSet : List Article → Article → List Article
  | [], a => [a]
  | b :: bs, a => if b.id == a.id then a :: bs else b :: mapSet bs a

/-- `Array.from(new Map(combinedArticles.map(item => [item.id, item])).values())`
(src/App.jsx line 91): insert every article into the map in order and read
the values back. -/
def dedupById (l : List Article) : List Article := l.foldl mapSet []

/-- First entry of the map with the given id, i.e. `Map.prototype.get`. -/
def lookupId (m : List Article) (id : String) : Option Article :=
  m.find? (fun b => b.id == id)

lemma mem_of_mem_mapSet {m : List Article} {a c : Article}
    (h : c ∈ mapSet m a) : c ∈ m ∨ c = a := by
  induction m with
  | nil => simpa [mapSet] using h
  | cons b bs ih =>
    by_cases hb : b.id == a.id
    · rw [mapSet, if_pos hb] at h
      rcases List.mem_cons.mp h with rfl | h'
      · exact Or.inr rfl
      · exact Or.inl (List.mem_cons_of_mem _ h')
    · rw [mapSet, if_neg hb] at h
      rcases List.mem_cons.mp h with rfl | h'
      · exact Or.inl (List.mem_cons_self _ _)
      · rcases ih h' with h'' | h''
        · exact Or.inl (List.mem_cons_of_mem _ h'')
        · exact Or.inr h''

lemma lookupId_mapSet (m : List Article) (a : Article) (id : String) :
    lookupId (mapSet m a) id = if a.id = id then some a else lookupId m id := by
  induction m with
  | nil =>
    by_cases hai : a.id = id
    · simp [mapSet, lookupId, hai]
    · have hf : (a.id == id) = false := by simpa using hai
      simp [mapSet, lookupId, hf, hai]
  | cons b bs ih =>
    by_cases hb : b.id == a.id
    · have hb' : b.id = a.id := by simpa using hb
      rw [mapSet, if_pos hb]
      by_cases hai : a.id = id
      · have ht : (a.id == id) = true := by simpa using hai
        simp [lookupId, ht, hai]
      · have hbid : ¬ b.id = id := fun h => hai (hb' ▸ h)
        have hf1 : (a.id == id) = false := by simpa using hai
        have hf2 : (b.id == id) = false := by simpa using hbid
        simp [lookupId, hf1, hf2, hai]
    · have hb' : ¬ b.id = a.id := by simpa using hb
      rw [mapSet, if_neg hb]
      by_cases hbid : b.id = id
      · have hai : ¬ a.id = id := fun h => hb' (hbid.trans h.symm)
        have ht : (b.id == id) = true := by simpa using hbid
        simp [lookupId, ht, hai]
      · have hf : (b.id == id) = false := by simpa using hbid
        by_cases hai : a.id = id
        · simpa [lookupId, hf, hai] using ih
        · simpa [lookupId, hf, hai] using ih

lemma lookupId_foldl (l : List Article) (m : List Article) (id : String) :
    lookupId (l.foldl mapSet m) id =
      match l.reverse.find? (fun b => b.id == id) with
      | some c => some c
      | none => lookupId m id := by
  induction l generalizing m with
  | nil => simp
  | cons x xs ih =>
    rw [List.foldl_cons, ih, List.reverse_cons, List.find?_append]
    cases hfind : xs.reverse.find? (fun b => b.id == id) with
    | some c => rfl
    | none =>
      rw [lookupId_mapSet]
      by_cases hx : x.id = id
      · have ht : (x.id == id) = true := by simpa using hx
        simp [ht, hx]
      · have hf : (x.id == id) = false := by simpa using hx
        simp [hf, hx]

lemma lookupId_dedupById (l : List Article) (id : String) :
    lookupId (dedupById l) id = l.reverse.find? (fun b => b.id == id) := by
  rw [dedupById, lookupId_foldl]
  cases hfind : l.reverse.find? (fun b => b.id == id) with
  | some c => rfl
  | none => simp [lookupId, List.find?]

lemma nodup_ids_mapSet (m : List Article) (a : Article)
    (h : (m.map Article.id).Nodup) : ((mapSet m a).map Article.id).Nodup := by
  induction m with
  | nil => simp [mapSet]
  | cons b bs ih =>
    rw [List.map_cons, List.nodup_cons] at h
    by_cases hb : b.id == a.id
    · have hb' : b.id = a.id := by simpa using hb
      rw [mapSet, if_pos hb, List.map_cons, List.nodup_cons]
      exact ⟨hb' ▸ h.1, h.2⟩
    · have hb' : ¬ b.id = a.id := by simpa using hb
      rw [mapSet, if_neg hb, List.map_cons, List.nodup_cons]
      refine ⟨?_, ih h.2⟩
      intro hmem
      rcases List.mem_map.mp hmem with ⟨c, hc, hcid⟩
      rcases mem_of_mem_mapSet hc with hcm | rfl
      · exact h.1 (List.mem_map.mpr ⟨c, hcm, hcid⟩)
      · exact hb' hcid.symm

lemma nodup_ids_foldl (l m : List Article)
    (h : (m.map Article.id).Nodup) :
    ((l.foldl mapSet m).map Article.id).Nodup := by
  induction l generalizing m with
  | nil => simpa using h
  | cons x xs ih => exact ih (mapSet m x) (nodup_ids_mapSet m x h)

lemma nodup_ids_dedupById (l : List Article) :
    ((dedupById l).map Article.id).Nodup :=
  nodup_ids_foldl l [] (by simp)

lemma find?_of_mem_nodup (m : List Article) (a : Article)
    (hmem : a ∈ m) (hnd : (m.map Article.id).Nodup) :
    m.find? (fun b => b.id == a.id) = some a := by
  induction m with
  | nil => cases hmem
  | cons b bs ih =>
    rw [List.map_cons, List.nodup_cons] at hnd
    rcases List.mem_cons.mp hmem with rfl | hmem'
    · simp [List.find?]
    · have hne : ¬ (b.id = a.id) := by
        intro hcon
        exact hnd.1 (hcon ▸ List.mem_map.mpr ⟨a, hmem', rfl⟩)
      simp only [List.find?, show (b.id == a.id) = false by simpa using hne, cond_false]
      exact ih hmem' hnd.2

/-- C1: deduplication yields pairwise-distinct ids; every id of the input
survives; and the record retained for an id is the last occurrence of that
id in concatenation order (the first match in the reversed input). -/
theorem dedupById_nodup_lastWins (l : List Article) :
    ((dedupById l).map Article.id).Nodup ∧
    (∀ a ∈ l, ∃ b ∈ dedupById l, b.id = a.id) ∧
    (∀ a ∈ dedupById l, l.reverse.find? (fun b => b.id == a.id) = some a) := by
  refine ⟨nodup_ids_dedupById l, ?_, ?_⟩
  · intro a ha
    have hrev : a ∈ l.reverse := List.mem_reverse.mpr ha
    have hsome : (l.reverse.find? (fun b => b.id == a.id)).isSome :=
      List.find?_isSome.mpr ⟨a, hrev, by simp⟩
    rcases Option.isSome_iff_exists.mp hsome with ⟨c, hc⟩
    have hcl : lookupId (dedupById l) a.id = some c := by
      rw [lookupId_dedupById]; exact hc
    have hcmem : c ∈ dedupById l := List.mem_of_find?_eq_some hcl
    have hcid : c.id = a.id := by
      have := List.find?_some hcl
      simpa using this
    exact ⟨c, hcmem, hcid⟩
  · intro a ha
    have h1 : lookupId (dedupById l) a.id = some a :=
      find?_of_mem_nodup (dedupById l) a ha (nodup_ids_dedupById l)
    rw [lookupId_dedupById] at h1
    exact h1

/-- Stable insertion of a later article into an already handled list that
is sorted by `publishedAt` descending: a later element goes behind every
earlier element whose date is greater or equal, as JavaScript's stable
`Array.prototype.sort` does with the comparator
`(a, b) => new Date(b.publishedAt) - new Date(a.publishedAt)`. -/
def insertDesc : List Article → Article → List Article
  | [], a => [a]
  | b :: bs, a =>
    if a.publishedAt ≤ b.publishedAt then b :: insertDesc bs a else a :: b :: bs

/-- `uniqueArticles.sort((a, b) => new Date(b.publishedAt) - new Date(a.publishedAt))`
(src/App.jsx line 92): sort the deduplicated list by publication date
descending. -/
def sortByDateDesc (l : List Article) : List Article := l.foldl insertDesc []

lemma perm_insertDesc (m : List Article) (a : Article) :
    List.Perm (insertDesc m a) (a :: m) := by
  induction m with
  | nil => rfl
  | cons b bs ih =>
    by_cases h : a.publishedAt ≤ b.publishedAt
    · rw [insertDesc, if_pos h]
      exact (ih.cons b).trans (List.Perm.swap a b bs)
    · rw [insertDesc, if_neg h]

lemma perm_foldl_insertDesc (l : List Article) (m : List Article) :
    List.Perm (l.foldl insertDesc m) (m ++ l) := by
  induction l generalizing m with
  | nil => simp
  | cons x xs ih =>
    rw [List.foldl_cons]
    have h1 : List.Perm (xs.foldl insertDesc (insertDesc m x)) (insertDesc m x ++ xs) := ih _
    have h2 : List.Perm (insertDesc m x ++ xs) ((x :: m) ++ xs) :=
      (perm_insertDesc m x).append_right xs
    have h3 : List.Perm ((x :: m) ++ xs) (m ++ x :: xs) := by
      simpa using List.perm_middle.symm
    exact (h1.trans h2).trans h3

lemma sortByDateDesc_perm (l : List Article) : List.Perm (sortByDateDesc l) l := by
  simpa using perm_foldl_insertDesc l []

lemma pairwise_insertDesc (m : List Article) (a : Article)
    (h : m.Pairwise (fun x y => y.publishedAt ≤ x.publishedAt)) :
    (insertDesc m a).Pairwise (fun x y => y.publishedAt ≤ x.publishedAt) := by
  induction m with
  | nil => simp [insertDesc]
  | cons b bs ih =>
    rw [List.pairwise_cons] at h
    by_cases hab : a.publishedAt ≤ b.publishedAt
    · rw [insertDesc, if_pos hab, List.pairwise_cons]
      refine ⟨?_, ih h.2⟩
      intro x hx
      have hx' : x ∈ a :: bs := (perm_insertDesc bs a).mem_iff.mp hx
      rcases List.mem_cons.mp hx' with rfl | hxm
      · exact hab
      · exact h.1 x hxm
    · rw [insertDesc, if_neg hab, List.pairwise_cons]
      push_neg at hab
      refine ⟨?_, List.pairwise_cons.mpr h⟩
      intro x hx
      rcases List.mem_cons.mp hx with rfl | hxm
      · exact le_of_lt hab
      · exact le_trans (h.1 x hxm) (le_of_lt hab)

lemma pairwise_foldl_insertDesc (l : List Article) (m : List Article)
    (h : m.Pairwise (fun x y => y.publishedAt ≤ x.publishedAt)) :
    (l.foldl insertDesc m).Pairwise (fun x y => y.publishedAt ≤ x.publishedAt) := by
  induction l generalizing m with
  | nil => simpa using h
  | cons x xs ih => exact ih (insertDesc m x) (pairwise_insertDesc m x h)

/-- C2: the sort step returns a permutation of the deduplicated list in
which every article's `publishedAt` is greater or equal to that of every
later article; in particular adjacent articles are in non-increasing
timestamp order. -/
theorem sortByDateDesc_sorted (l : List Article) :
    List.Perm (sortByDateDesc l) l ∧
    (sortByDateDesc l).Pairwise (fun a b => b.publishedAt ≤ a.publishedAt) ∧
    (sortByDateDesc l).Chain' (fun a b => b.publishedAt ≤ a.publishedAt) := by
  have hp : (sortByDateDesc l).Pairwise (fun a b => b.publishedAt ≤ a.publishedAt) :=
    pairwise_foldl_insertDesc l [] (by simp)
  exact ⟨sortByDateDesc_perm l, hp, hp.chain'⟩

/-- Raw NewsAPI article (`results[0].value.articles` entries,
src/App.jsx lines 43-52): `urlToImage` may be null. -/
structure NewsApiRaw where
  url : String
  title : String
  urlToImage : Option String
  sourceName : String
  publishedAt : Int
deriving Repr, DecidableEq

/-- Raw GNews article (`results[1].value.articles` entries,
src/App.jsx lines 59-68). -/
structure GNewsRaw where
  url : String
  title : String
  image : Option String
  sourceName : String
  publishedAt : Int
deriving Repr, DecidableEq

/-- Raw Guardian article (`results[2].value.response.results` entries,
src/App.jsx lines 75-84): `fields?.thumbnail` may be absent. -/
structure GuardianRaw where
  id : String
  webTitle : String
  webUrl : String
  thumbnail : Option String
  webPublicationDate : Int
deriving Repr, DecidableEq

/-- Normalization of a NewsAPI article (src/App.jsx lines 44-52). -/
def normalizeNewsApi (a : NewsApiRaw) : Article :=
  { id := a.url, title := a.title, url := a.url, imageUrl := a.urlToImage,
    source := a.sourceName, publishedAt := a.publishedAt, apiSource := "NewsAPI" }

/-- Normalization of a GNews article (src/App.jsx lines 60-68). -/
def normalizeGNews (a : GNewsRaw) : Article :=
  { id := a.url, title := a.title, url := a.url, imageUrl := a.image,
    source := a.sourceName, publishedAt := a.publishedAt, apiSource := "GNews" }

/-- Normalization of a Guardian article (src/App.jsx lines 76-84). -/
def normalizeGuardian (a : GuardianRaw) : Article :=
  { id := a.id, title := a.webTitle, url := a.webUrl, imageUrl := a.thumbnail,
    source := "The Guardian", publishedAt := a.webPublicationDate,
    apiSource := "The Guardian" }

/-- The three `Promise.allSettled` outcomes (src/App.jsx lines 34-38).
`none` stands for a rejected request or a fulfilled payload without the
expected articles field; `some l` for a fulfilled payload carrying `l`. -/
structure FetchResults where
  newsApi : Option (List NewsApiRaw)
  gnews : Option (List GNewsRaw)
  guardian : Option (List GuardianRaw)
deriving Repr

/-- One `if (fulfilled && articles) push(normalized) else log` block of
`fetchAllNews`: a failed source contributes nothing. -/
def processSource {α : Type} (o : Option (List α)) (normalize : α → Article) :
    List Article :=
  match o with
  | some l => l.map normalize
  | none => []

/-- `combinedArticles` after the three processing blocks of `fetchAllNews`
(src/App.jsx lines 40-88): the three normalized lists concatenated in
source order. -/
def combinedArticles (r : FetchResults) : List Article :=
  processSource r.newsApi normalizeNewsApi ++
    processSource r.gnews normalizeGNews ++
      processSource r.guardian normalizeGuardian

/-- `setArticles(uniqueArticles)` input: the full merge pipeline of
`fetchAllNews` (src/App.jsx lines 90-94). -/
def mergeArticles (r : FetchResults) : List Article :=
  sortByDateDesc (dedupById (combinedArticles r))

/-- C3: the aggregation collects every outcome independently: whatever the
other sources did (reject or return an unexpected payload), each source
that fulfilled with the expected shape has its normalized articles inside
the merged concatenation, in order. -/
theorem combinedArticles_collects_fulfilled (r : FetchResults) :
    (∀ l, r.newsApi = some l →
      List.Sublist (l.map normalizeNewsApi) (combinedArticles r)) ∧
    (∀ l, r.gnews = some l →
      List.Sublist (l.map normalizeGNews) (combinedArticles r)) ∧
    (∀ l, r.guardian = some l →
      List.Sublist (l.map normalizeGuardian) (combinedArticles r)) := by
  refine ⟨?_, ?_, ?_⟩
  · intro l hl
    have h1 : processSource r.newsApi normalizeNewsApi = l.map normalizeNewsApi := by
      rw [hl]; rfl
    rw [combinedArticles, h1, List.append_assoc]
    exact List.sublist_append_left _ _
  · intro l hl
    have h1 : processSource r.gnews normalizeGNews = l.map normalizeGNews := by
      rw [hl]; rfl
    rw [combinedArticles, h1, List.append_assoc]
    have h2 : List.Sublist (l.map normalizeGNews)
        (l.map normalizeGNews ++ processSource r.guardian normalizeGuardian) :=
      List.sublist_append_left _ _
    exact h2.trans (List.sublist_append_right _ _)
  · intro l hl
    have h1 : processSource r.guardian normalizeGuardian = l.map normalizeGuardian := by
      rw [hl]; rfl
    rw [combinedArticles, h1]
    exact List.sublist_append_right _ _

/-- The character sequence of `s.toLowerCase()`: JavaScript's simple-case
lowering maps each character, as `String.toLower` does. -/
def lowerChars (s : String) : List Char := s.data.map Char.toLower

/-- `article.title.toLowerCase().includes(searchQuery.toLowerCase())`
(src/App.jsx lines 180-184): case-insensitive substring test of the live
search string against the title. -/
def matchesQuery (searchQuery : String) (a : Article) : Bool :=
  decide (lowerChars searchQuery <:+: lowerChars a.title)

/-- `filteredArticles` (src/App.jsx lines 179-185): the bookmarks list in
bookmarks view, otherwise the articles list, filtered by the search
string. -/
def filteredArticles (showBookmarks : Bool) (bookmarks articles : List Article)
    (searchQuery : String) : List Article :=
  if showBookmarks then bookmarks.filter (matchesQuery searchQuery)
  else articles.filter (matchesQuery searchQuery)

/-- C4: the filtered list is a sublist (hence in original order) of the
selected list, keeps exactly the articles whose lowercased title contains
the lowercased query as a substring, and with an empty query it is the
whole selected list. -/
theorem filteredArticles_spec (showBookmarks : Bool)
    (bookmarks articles : List Article) (searchQuery : String) :
    List.Sublist (filteredArticles showBookmarks bookmarks articles searchQuery)
      (if showBookmarks then bookmarks else articles) ∧
    (∀ a, a ∈ filteredArticles showBookmarks bookmarks articles searchQuery ↔
      a ∈ (if showBookmarks then bookmarks else articles) ∧
        lowerChars searchQuery <:+: lowerChars a.title) ∧
    filteredArticles showBookmarks bookmarks articles "" =
      (if showBookmarks then bookmarks else articles) := by
  have hempty : ∀ (l : List Article), l.filter (matchesQuery "") = l := by
    intro l
    rw [List.filter_eq_self]
    intro a _
    have : lowerChars "" = [] := rfl
    simp [matchesQuery, this]
  cases showBookmarks with
  | false =>
    refine ⟨?_, ?_, ?_⟩
    · simp [filteredArticles]
    · intro a
      simp [filteredArticles, matchesQuery]
    · simpa [filteredArticles] using hempty articles
  | true =>
    refine ⟨?_, ?_, ?_⟩
    · simp [filteredArticles]
    · intro a
      simp [filteredArticles, matchesQuery]
    · simpa [filteredArticles] using hempty bookmarks

/-- `Math.ceil(filteredArticles.length / itemsPerPage)` (src/App.jsx line
187), as ceiling division on naturals. -/
def totalPages (len itemsPerPage : Nat) : Nat :=
  (len + itemsPerPage - 1) / itemsPerPage

/-- `filteredArticles.slice(startIndex, startIndex + itemsPerPage)` with
`startIndex = (currentPage - 1) * itemsPerPage` (src/App.jsx lines
188-189). -/
def currentArticles (filtered : List Article) (itemsPerPage currentPage : Nat) :
    List Article :=
  (filtered.drop ((currentPage - 1) * itemsPerPage)).take itemsPerPage

lemma totalPages_ceil (len n : Nat) (hn : 0 < n) :
    len ≤ totalPages len n * n ∧ totalPages len n * n < len + n := by
  have h1 : len + n - 1 < ((len + n - 1) / n + 1) * n :=
    (Nat.div_lt_iff_lt_mul hn).mp (Nat.lt_succ_self _)
  have h2 : (len + n - 1) / n * n ≤ len + n - 1 := Nat.div_mul_le_self _ _
  unfold totalPages
  rw [Nat.succ_mul] at h1
  omega

lemma totalPages_zero (n : Nat) (hn : 0 < n) : totalPages 0 n = 0 := by
  unfold totalPages
  exact Nat.div_eq_of_lt (by omega)

lemma totalPages_succ (len n : Nat) (hn : 0 < n) (hlen : 0 < len) :
    totalPages len n = totalPages (len - n) n + 1 := by
  unfold totalPages
  rcases Nat.le_total n len with h | h
  · have h1 : len - n + n - 1 = len - 1 := by omega
    have h2 : len + n - 1 = (len - 1) + n := by omega
    rw [h1, h2, Nat.add_div_right _ hn]
  · have h1 : len - n = 0 := by omega
    have h2 : (0 + n - 1) / n = 0 := Nat.div_eq_of_lt (by omega)
    rw [h1, h2]
    have h3 : (len + n - 1) / n = 1 := by
      apply Nat.div_eq_of_lt_le
      · omega
      · omega
    rw [h3]

lemma pages_join_fuel (n : Nat) (hn : 0 < n) :
    ∀ (k : Nat) (l : List Article), l.length ≤ k →
      ((List.range (totalPages l.length n)).map
        (fun i => (l.drop (i * n)).take n)).flatten = l := by
  intro k
  induction k with
  | zero =>
    intro l hl
    have h0 : l = [] := List.length_eq_zero.mp (Nat.le_zero.mp hl)
    subst h0
    simp [totalPages_zero n hn]
  | succ k ih =>
    intro l hl
    by_cases h0 : l.length = 0
    · have h0' : l = [] := List.length_eq_zero.mp h0
      subst h0'
      simp [totalPages_zero n hn]
    · have hpos : 0 < l.length := Nat.pos_of_ne_zero h0
      have hdroplen : (l.drop n).length = l.length - n := List.length_drop n l
      have hstep : totalPages l.length n = totalPages (l.drop n).length n + 1 := by
        rw [hdroplen]
        exact totalPages_succ l.length n hn hpos
      rw [hstep, List.range_succ_eq_map, List.map_cons, List.flatten_cons]
      have hhead : (l.drop (0 * n)).take n = l.take n := by simp
      rw [hhead, List.map_map]
      have htail : ∀ i, ((fun i => (l.drop (i * n)).take n) ∘ Nat.succ) i
          = (fun i => ((l.drop n).drop (i * n)).take n) i := by
        intro i
        simp only [Function.comp]
        rw [List.drop_drop]
        have harith : Nat.succ i * n = n + i * n := by
          rw [Nat.succ_mul, Nat.add_comm]
        rw [harith]
      rw [List.map_congr_left (fun i _ => htail i)]
      have hih : ((List.range (totalPages (l.drop n).length n)).map
          (fun i => ((l.drop n).drop (i * n)).take n)).flatten = l.drop n := by
        apply ih
        rw [hdroplen]
        omega
      rw [hih]
      exact List.take_append_drop n l

/-- C5: with a positive page size and a page number at least 1, `totalPages`
is the ceiling of the filtered length over the page size (the least page
count whose pages cover the list), the displayed page is the contiguous
slice from index `(p-1)*n` up to but excluding `p*n`, every page holds at
most `n` articles, and the pages in order concatenate back to exactly the
filtered list. -/
theorem pagination_spec (filtered : List Article) (itemsPerPage currentPage : Nat)
    (hn : 0 < itemsPerPage) (hp : 1 ≤ currentPage) :
    (filtered.length ≤ totalPages filtered.length itemsPerPage * itemsPerPage ∧
      totalPages filtered.length itemsPerPage * itemsPerPage <
        filtered.length + itemsPerPage) ∧
    currentArticles filtered itemsPerPage currentPage =
      (filtered.take (currentPage * itemsPerPage)).drop
        ((currentPage - 1) * itemsPerPage) ∧
    (currentArticles filtered itemsPerPage currentPage).length ≤ itemsPerPage ∧
    ((List.range (totalPages filtered.length itemsPerPage)).map
      (fun i => currentArticles filtered itemsPerPage (i + 1))).flatten = filtered := by
  refine ⟨totalPages_ceil filtered.length itemsPerPage hn, ?_, ?_, ?_⟩
  · rw [currentArticles, List.take_drop]
    obtain ⟨q, hq⟩ : ∃ q, currentPage = q + 1 := ⟨currentPage - 1, by omega⟩
    subst hq
    have harith : q * itemsPerPage + itemsPerPage = (q + 1) * itemsPerPage := by
      rw [Nat.succ_mul]
    simp only [Nat.add_sub_cancel]
    rw [harith]
  · rw [currentArticles]
    exact (List.length_take_le _ _)
  · have hpages := pages_join_fuel itemsPerPage hn filtered.length filtered
      (le_refl _)
    have hcongr : ∀ i, currentArticles filtered itemsPerPage (i + 1)
        = (filtered.drop (i * itemsPerPage)).take itemsPerPage := by
      intro i
      rw [currentArticles]
      have : i + 1 - 1 = i := by omega
      rw [this]
    rw [List.map_congr_left (fun i _ => hcongr i)]
    exact hpages

/-- Sample articles for the concrete witnesses. -/
def artAlpha : Article :=
  { id := "https://example.com/alpha", title := "Alpha Breakthrough In AI",
    url := "https://example.com/alpha", imageUrl := none, source := "Example",
    publishedAt := 30, apiSource := "NewsAPI", bookmarkedAt := none }

/-- A second sample article. -/
def artBeta : Article :=
  { id := "https://example.com/beta", title := "Beta Release Of A Model",
    url := "https://example.com/beta", imageUrl := some "https://example.com/b.png",
    source := "Example", publishedAt := 20, apiSource := "GNews",
    bookmarkedAt := none }

/-- A third sample article. -/
def artGamma : Article :=
  { id := "technology/gamma", title := "Gamma Review",
    url := "https://example.com/gamma", imageUrl := none,
    source := "The Guardian", publishedAt := 10, apiSource := "The Guardian",
    bookmarkedAt := none }

/-- Witness for C5 at a concrete input: three articles, two per page, so
page one holds two articles and page two the remaining one, and the two
pages concatenate back to the list. -/
theorem pagination_spec_witness :
    ((List.range (totalPages ([artAlpha, artBeta, artGamma] : List Article).length 2)).map
      (fun i => currentArticles [artAlpha, artBeta, artGamma] 2 (i + 1))).flatten
      = [artAlpha, artBeta, artGamma] :=
  (pagination_spec [artAlpha, artBeta, artGamma] 2 2 (by decide) (by decide)).2.2.2

/-- `addBookmark` (src/App.jsx lines 152-160): if no bookmark with the
article's id exists, append a record with all the article's fields plus a
`bookmarkedAt` stamp; otherwise return the previous list unchanged. -/
def addBookmark (prev : List Article) (article : Article) (now : Int) :
    List Article :=
  if prev.any (fun bookmark => bookmark.id == article.id) then prev
  else prev ++ [{ article with bookmarkedAt := some now }]

/-- `removeBookmark` (src/App.jsx lines 162-164): keep every bookmark whose
id differs from the removed one. -/
def removeBookmark (prev : List Article) (articleId : String) : List Article :=
  prev.filter (fun bookmark => bookmark.id != articleId)

/-- `isBookmarked` (src/App.jsx lines 166-168). -/
def isBookmarked (bookmarks : List Article) (articleId : String) : Bool :=
  bookmarks.any (fun bookmark => bookmark.id == articleId)

/-- `clearAllBookmarks` (src/App.jsx lines 170-172): reset to the empty
list. -/
def clearAllBookmarks : List Article := []

lemma addBookmark_of_not_mem (prev : List Article) (article : Article)
    (now : Int) (h : ∀ b ∈ prev, b.id ≠ article.id) :
    addBookmark prev article now
      = prev ++ [{ article with bookmarkedAt := some now }] := by
  have hany : ¬ (prev.any (fun bookmark => bookmark.id == article.id) = true) := by
    rw [List.any_eq_true]
    rintro ⟨b, hb, hbeq⟩
    exact h b hb (by simpa using hbeq)
  rw [addBookmark, if_neg hany]

lemma addBookmark_of_mem (prev : List Article) (article : Article)
    (now : Int) (h : ∃ b ∈ prev, b.id = article.id) :
    addBookmark prev article now = prev := by
  rcases h with ⟨b, hb, hbeq⟩
  have hany : prev.any (fun bookmark => bookmark.id == article.id) = true :=
    List.any_eq_true.mpr ⟨b, hb, by simp [hbeq]⟩
  rw [addBookmark, if_pos hany]

/-- C6: `addBookmark` appends the article, all fields kept, stamped with a
`bookmarkedAt` timestamp when no bookmark with its id is present, and
returns the list unchanged when one is. -/
theorem addBookmark_spec (prev : List Article) (article : Article) (now : Int) :
    ((∀ b ∈ prev, b.id ≠ article.id) →
      addBookmark prev article now
        = prev ++ [{ article with bookmarkedAt := some now }]) ∧
    ((∃ b ∈ prev, b.id = article.id) → addBookmark prev article now = prev) :=
  ⟨addBookmark_of_not_mem prev article now, addBookmark_of_mem prev article now⟩

/-- Witness for C6: adding a fresh article appends it with the stamp, and
adding it again changes nothing. -/
theorem addBookmark_spec_witness :
    addBookmark [artAlpha] artBeta 5
      = [artAlpha, { artBeta with bookmarkedAt := some (5 : Int) }] :=
  (addBookmark_spec [artAlpha] artBeta 5).1 (by decide)

/-- `toggleTheme` (src/hooks/useTheme.js lines 23-25): `'light'` becomes
`'dark'`, anything else becomes `'light'`. -/
def toggleTheme (theme : String) : String :=
  if theme == "light" then "dark" else "light"

/-- `toggleDarkMode` (src/App.jsx lines 174-176): boolean negation of the
dark-mode flag. -/
def toggleDarkMode (darkMode : Bool) : Bool := !darkMode

/-- C7: on the light/dark pair the theme toggle swaps the two values and
applying it twice restores the original; the boolean dark-mode toggle in
App.jsx is an involution outright. -/
theorem toggleTheme_involutive (theme : String)
    (h : theme = "light" ∨ theme = "dark") :
    toggleTheme (toggleTheme theme) = theme ∧
    (theme = "light" → toggleTheme theme = "dark") ∧
    (theme = "dark" → toggleTheme theme = "light") ∧
    (∀ darkMode : Bool, toggleDarkMode (toggleDarkMode darkMode) = darkMode) := by
  rcases h with rfl | rfl
  · exact ⟨by decide, fun _ => by decide, fun hcon => absurd hcon (by decide),
      fun b => by cases b <;> rfl⟩
  · exact ⟨by decide, fun hcon => absurd hcon (by decide), fun _ => by decide,
      fun b => by cases b <;> rfl⟩

/-- Witness for C7 at the concrete theme `'light'`. -/
theorem toggleTheme_involutive_witness :
    ("light" = "light" ∨ "light" = "dark") ∧
    toggleTheme (toggleTheme "light") = "light" :=
  ⟨Or.inl rfl, (toggleTheme_involutive "light" (Or.inl rfl)).1⟩

/-- C8: on a list without the article's id, adding the bookmark and then
removing that id restores the original list. -/
theorem addBookmark_removeBookmark_roundtrip (prev : List Article)
    (article : Article) (now : Int) (h : ∀ b ∈ prev, b.id ≠ article.id) :
    removeBookmark (addBookmark prev article now) article.id = prev := by
  rw [addBookmark_of_not_mem prev article now h, removeBookmark,
    List.filter_append]
  have h1 : List.filter (fun bookmark => bookmark.id != article.id) prev = prev := by
    rw [List.filter_eq_self]
    intro b hb
    simpa using h b hb
  have h2 : List.filter (fun bookmark => bookmark.id != article.id)
      [{ article with bookmarkedAt := some now }] = [] := by
    simp
  rw [h1, h2, List.append_nil]

/-- Witness for C8: add then remove on a concrete one-element list. -/
theorem addBookmark_removeBookmark_roundtrip_witness :
    removeBookmark (addBookmark [artAlpha] artBeta 5) artBeta.id = [artAlpha] :=
  addBookmark_removeBookmark_roundtrip [artAlpha] artBeta 5 (by decide)

/-- C9: starting from pairwise-distinct bookmark ids, `addBookmark`,
`removeBookmark` and `clearAllBookmarks` each yield a list whose ids are
again pairwise distinct. -/
theorem bookmarkOps_preserve_nodup (prev : List Article) (article : Article)
    (now : Int) (articleId : String) (h : (prev.map Article.id).Nodup) :
    ((addBookmark prev article now).map Article.id).Nodup ∧
    ((removeBookmark prev articleId).map Article.id).Nodup ∧
    (clearAllBookmarks.map Article.id).Nodup := by
  refine ⟨?_, ?_, by simp [clearAllBookmarks]⟩
  · by_cases hmem : prev.any (fun bookmark => bookmark.id == article.id)
    · rw [addBookmark, if_pos hmem]
      exact h
    · rw [addBookmark, if_neg hmem]
      have hnotin : article.id ∉ prev.map Article.id := by
        intro hin
        rcases List.mem_map.mp hin with ⟨b, hb, hbid⟩
        exact hmem (List.any_eq_true.mpr ⟨b, hb, by simp [hbid]⟩)
      have hids : (prev ++ [{ article with bookmarkedAt := some now }]).map Article.id
          = prev.map Article.id ++ [article.id] := by
        simp
      rw [hids, List.nodup_append]
      refine ⟨h, List.nodup_singleton _, ?_⟩
      intro x hx hxmem
      rw [List.mem_singleton] at hxmem
      exact hnotin (hxmem ▸ hx)
  · rw [removeBookmark]
    exact List.Nodup.sublist
      (List.Sublist.map Article.id (List.filter_sublist prev)) h

/-- Witness for C9: the three operations on a concrete two-element list
with distinct ids. -/
theorem bookmarkOps_preserve_nodup_witness :
    ((addBookmark [artAlpha, artGamma] artBeta 5).map Article.id).Nodup :=
  (bookmarkOps_preserve_nodup [artAlpha, artGamma] artBeta 5 "x" (by decide)).1

/-- `goToPage` (src/App.jsx lines 191-196): update the current page only
when the requested page lies between 1 and the total page count. -/
def goToPage (currentPage : Int) (totalPagesCount : Int) (page : Int) : Int :=
  if 1 ≤ page ∧ page ≤ totalPagesCount then page else currentPage

/-- C10: `goToPage` moves to the requested page exactly when it lies
between 1 and the total page count; any out-of-range request leaves the
current page unchanged, and when the total page count is 0 every request
does. -/
theorem goToPage_spec (currentPage totalPagesCount page : Int) :
    ((1 ≤ page ∧ page ≤ totalPagesCount) →
      goToPage currentPage totalPagesCount page = page) ∧
    (¬ (1 ≤ page ∧ page ≤ totalPagesCount) →
      goToPage currentPage totalPagesCount page = currentPage) ∧
    (totalPagesCount = 0 → goToPage currentPage totalPagesCount page = currentPage) := by
  refine ⟨fun h => by rw [goToPage, if_pos h], fun h => by rw [goToPage, if_neg h], ?_⟩
  intro h0
  subst h0
  rw [goToPage, if_neg]
  rintro ⟨h1, h2⟩
  omega

/-- Witness for C10: an in-range jump, an out-of-range jump and the
zero-page case at concrete values. -/
theorem goToPage_spec_witness :
    goToPage 5 3 2 = 2 ∧ goToPage 5 3 7 = 5 ∧ goToPage 5 0 1 = 5 :=
  ⟨(goToPage_spec 5 3 2).1 (by decide), (goToPage_spec 5 3 7).2.1 (by decide),
    (goToPage_spec 5 0 1).2.2 (by decide)⟩
